import Mathlib

/-!
Verification of the backup scheduling and retention logic of `backup.py`
(pgwaiter).  Directory names are modelled as `String`; Python's string
comparison is code-point lexicographic, which is the order on the
underlying character list (`String.data`), so every comparison below is
performed on `.data`.  Times are modelled in seconds; a parsed calendar
date is converted to seconds via its civil day number.  `prune_old_backups`
is modelled as the ordered list of directories the function attempts to
delete, and `main` as the trace of external effects plus the process exit
code.
-/

namespace Pgwaiter

/-- Python's `a <= b` on strings: code-point lexicographic order. -/
def nameLe (a b : String) : Bool := decide (a.data ≤ b.data)

/-- Python's `a < b` on strings: code-point lexicographic order. -/
def nameLt (a b : String) : Bool := decide (a.data < b.data)

/-- `d.endswith("_full")`. -/
def isFullName (d : String) : Bool := List.isSuffixOf "_full".data d.data

/-- Python's `sorted` on a list of names: a stable sort in code-point order.
A stable sort is a unique function of its input, so insertion sort is
extensionally the same function as the one the interpreter uses. -/
def pySorted (l : List String) : List String :=
  List.insertionSort (fun a b => a.data ≤ b.data) l

/-- The result of `datetime.strptime(s, "%Y-%m-%d")`: a calendar date. -/
structure PDate where
  year : Nat
  month : Nat
  day : Nat
deriving DecidableEq, Repr

/-- Gregorian leap-year rule, as used by `datetime`. -/
def isLeapYear (y : Nat) : Bool := (y % 4 == 0 && y % 100 != 0) || y % 400 == 0

/-- Number of days in a month, as validated by the `datetime` constructor. -/
def daysInMonth (y m : Nat) : Nat :=
  if m = 2 then (if isLeapYear y then 29 else 28)
  else if m = 4 ∨ m = 6 ∨ m = 9 ∨ m = 11 then 30
  else 31

/-- Value of a list of decimal digit characters. -/
def digitsToNat (cs : List Char) : Nat :=
  cs.foldl (fun acc c => 10 * acc + (c.toNat - 48)) 0

/-- `datetime.strptime(s, "%Y-%m-%d")`, returning `none` exactly when CPython
raises `ValueError`: the string must be exactly four digits of year, a dash,
one or two digits of month in 1..12, a dash, and one or two digits of day
that is valid for that month and year; the year must be at least 1
(`datetime.MINYEAR`). -/
def strptimeYMD (cs : List Char) : Option PDate :=
  match cs with
  | c1 :: c2 :: c3 :: c4 :: '-' :: rest =>
    if c1.isDigit && c2.isDigit && c3.isDigit && c4.isDigit then
      let y := digitsToNat [c1, c2, c3, c4]
      let mtok := rest.takeWhile Char.isDigit
      let m := digitsToNat mtok
      if (mtok.length = 1 ∨ mtok.length = 2) ∧ 1 ≤ m ∧ m ≤ 12 then
        match rest.dropWhile Char.isDigit with
        | '-' :: rest2 =>
          let dtok := rest2.takeWhile Char.isDigit
          let dv := digitsToNat dtok
          if rest2.dropWhile Char.isDigit = [] ∧ (dtok.length = 1 ∨ dtok.length = 2) ∧
              1 ≤ dv ∧ dv ≤ daysInMonth y m ∧ 1 ≤ y then
            some ⟨y, m, dv⟩
          else none
        | _ => none
      else none
    else none
  | _ => none

/-- `full_backup_name.split("T")[0]`: the prefix before the first `T`
(the whole string when no `T` occurs). -/
def dateStrOf (s : String) : List Char := s.data.takeWhile (fun c => c ≠ 'T')

/-- `datetime.strptime(full_backup_name.split("T")[0], "%Y-%m-%d")`,
`none` on `ValueError`. -/
def parseBackupDate (s : String) : Option PDate := strptimeYMD (dateStrOf s)

/-- The civil day number of a date relative to 1970-01-01
(Howard Hinnant's days-from-civil algorithm), i.e.
`(datetime(y, m, d) - datetime(1970, 1, 1)).days`. -/
def daysFromCivil (dt : PDate) : Int :=
  let y := if dt.month ≤ 2 then dt.year - 1 else dt.year
  let era := y / 400
  let yoe := y % 400
  let mp := if dt.month ≤ 2 then dt.month + 9 else dt.month - 3
  let doy := (153 * mp + 2) / 5 + (dt.day - 1)
  let doe := yoe * 365 + yoe / 4 - yoe / 100 + doy
  (era * 146097 + doe : Int) - 719468

/-- `now - backup_date > retention_delta` with `retention_delta =
timedelta(days=retention_days)`: times in seconds, `backup_date` being the
midnight at the start of the parsed date. -/
def isExpired (now retentionDays : Int) (dt : PDate) : Bool :=
  decide (now - 86400 * daysFromCivil dt > 86400 * retentionDays)

/-- `all_dirs = sorted([d for d in os.listdir(BACKUP_DIR) ...])`:
the listing in sorted order. -/
def sortedDirs (listing : List String) : List String := pySorted listing

/-- `full_backups = sorted([d for d in all_dirs if d.endswith("_full")])`. -/
def fullBackups (listing : List String) : List String :=
  pySorted ((sortedDirs listing).filter isFullName)

/-- One iteration of the pruning loop, for the pair
`p = (full_backups[i], full_backups[i+1])`: if the date embedded in
`full_backups[i]` parses (`continue` otherwise) and is older than the
retention period, the deleted set is
`[d for d in all_dirs if d >= start_dir and d < end_dir]`. -/
def chainDeletions (all_dirs : List String) (now retentionDays : Int)
    (p : String × String) : List String :=
  match parseBackupDate p.1 with
  | none => []
  | some dt =>
    if isExpired now retentionDays dt then
      all_dirs.filter (fun d => nameLe p.1 d && nameLt d p.2)
    else []

/-- `prune_old_backups()`, modelled as the ordered list of directories the
function attempts to delete (`shutil.rmtree` targets), given the directory
listing, the current time in seconds and the retention in days.  The loop
`for i, full_backup_name in enumerate(full_backups[:-1])` with upper bound
`full_backups[i+1]` visits exactly the pairs of
`full_backups.zip full_backups.tail`. -/
def prune_old_backups (listing : List String) (now retentionDays : Int) :
    List String :=
  let all_dirs := sortedDirs listing
  let full_backups := fullBackups listing
  if full_backups.length ≤ 1 then []
  else
    (full_backups.zip full_backups.tail).flatMap
      (chainDeletions all_dirs now retentionDays)

/-- `find_latest_backup()`: `None` on an empty listing, else
`sorted(backups)[-1]` (the directory-name part of the returned path). -/
def find_latest_backup (backups : List String) : Option String :=
  if backups.isEmpty then none
  else (pySorted backups).getLast?

/-- The kind of backup the planner decides to take. -/
inductive BackupKind
  | full
  | incremental
deriving DecidableEq, Repr

/-- The planner's branch condition in `main`:
`if is_full_backup_day or not latest_backup_path` chooses FULL,
otherwise INCREMENTAL. -/
def plannedKind (fullBackupDay todayDay : Nat) (listing : List String) :
    BackupKind :=
  if todayDay = fullBackupDay ∨ (find_latest_backup listing).isNone then
    BackupKind.full
  else BackupKind.incremental

/-- Externally observable effects of one run of the script: invoking
`pg_basebackup` toward a destination directory, and deleting one directory. -/
inductive Event
  | runBackup (kind : BackupKind) (dest : String)
  | deleteDir (name : String)
deriving DecidableEq, Repr

/-- Environment-derived configuration: whether `PGUSER`/`PGHOST` are set to
non-empty values, `FULL_BACKUP_DAY`, and `RETENTION_DAYS`. -/
structure Config where
  pgUser : Bool
  pgHost : Bool
  fullBackupDay : Nat
  retentionDays : Int

/-- The state of the world a run observes: the backup-directory listing, the
names of the sets that contain a `backup_manifest` artifact, whether the
external `pg_basebackup` invocation succeeds, today's day of month, the
timestamp used to name the new set, and the current time in seconds. -/
structure World where
  listing : List String
  manifests : List String
  backupOk : Bool
  todayDay : Nat
  timestamp : String
  now : Int

/-- `main()` under the top-level `except Exception: sys.exit(1)` handler:
returns the trace of external effects and the process exit code.  Missing
credentials exit 1 before anything runs; a missing anchor manifest for a
planned incremental exits 1 before invoking the executor; a failed executor
invocation exits 1 before pruning; on success, pruning runs over the updated
listing and the run exits 0. -/
def runMain (cfg : Config) (w : World) : List Event × Nat :=
  if !cfg.pgUser || !cfg.pgHost then ([], 1)
  else
    match plannedKind cfg.fullBackupDay w.todayDay w.listing with
    | BackupKind.full =>
      let dest := w.timestamp ++ "_full"
      if w.backupOk then
        (Event.runBackup BackupKind.full dest ::
          (prune_old_backups (w.listing ++ [dest]) w.now cfg.retentionDays).map
            Event.deleteDir, 0)
      else ([Event.runBackup BackupKind.full dest], 1)
    | BackupKind.incremental =>
      match find_latest_backup w.listing with
      | none => ([], 1)
      | some anchor =>
        if anchor ∈ w.manifests then
          let dest := w.timestamp ++ "_incremental"
          if w.backupOk then
            (Event.runBackup BackupKind.incremental dest ::
              (prune_old_backups (w.listing ++ [dest]) w.now
                cfg.retentionDays).map Event.deleteDir, 0)
          else ([Event.runBackup BackupKind.incremental dest], 1)
        else ([], 1)

/-! ### Order and sorting facts -/

instance : IsTotal String (fun a b => a.data ≤ b.data) :=
  ⟨fun a b => le_total a.data b.data⟩

instance : IsTrans String (fun a b => a.data ≤ b.data) :=
  ⟨fun _ _ _ hab hbc => le_trans hab hbc⟩

theorem data_inj {a b : String} (h : a.data = b.data) : a = b := by
  cases a
  cases b
  exact congrArg String.mk h

theorem nameLe_eq_true {a b : String} : nameLe a b = true ↔ a.data ≤ b.data :=
  decide_eq_true_iff

theorem nameLt_eq_true {a b : String} : nameLt a b = true ↔ a.data < b.data :=
  decide_eq_true_iff

theorem perm_pySorted (l : List String) : (pySorted l).Perm l :=
  List.perm_insertionSort _ l

theorem mem_pySorted {a : String} {l : List String} : a ∈ pySorted l ↔ a ∈ l :=
  (perm_pySorted l).mem_iff

theorem pairwise_le_pySorted (l : List String) :
    (pySorted l).Pairwise (fun a b => a.data ≤ b.data) :=
  List.sorted_insertionSort _ l

theorem nodup_pySorted {l : List String} (h : l.Nodup) : (pySorted l).Nodup :=
  (perm_pySorted l).nodup_iff.mpr h

theorem mem_sortedDirs {a : String} {l : List String} :
    a ∈ sortedDirs l ↔ a ∈ l :=
  mem_pySorted

theorem mem_fullBackups {a : String} {l : List String} :
    a ∈ fullBackups l ↔ a ∈ l ∧ isFullName a = true := by
  unfold fullBackups
  rw [mem_pySorted, List.mem_filter, mem_sortedDirs]

theorem pairwise_le_fullBackups (l : List String) :
    (fullBackups l).Pairwise (fun a b => a.data ≤ b.data) :=
  pairwise_le_pySorted _

theorem nodup_fullBackups {l : List String} (h : l.Nodup) :
    (fullBackups l).Nodup :=
  nodup_pySorted ((nodup_pySorted h).filter isFullName)

theorem pairwise_lt_fullBackups {l : List String} (h : l.Nodup) :
    (fullBackups l).Pairwise (fun a b => a.data < b.data) := by
  have h1 := pairwise_le_fullBackups l
  have h2 : (fullBackups l).Pairwise (fun a b => a ≠ b) := nodup_fullBackups h
  exact (h1.and h2).imp fun hab =>
    lt_of_le_of_ne hab.1 fun he => hab.2 (data_inj he)

theorem pairwise_le_getElem {l : List String}
    (hs : l.Pairwise (fun a b => a.data ≤ b.data)) (i j : Nat)
    (hi : i < l.length) (hj : j < l.length) (hij : i ≤ j) :
    (l[i]).data ≤ (l[j]).data := by
  rcases Nat.lt_or_ge i j with hlt | hge
  · exact (List.pairwise_iff_getElem.mp hs) i j hi hj hlt
  · have hij2 : i = j := le_antisymm hij hge
    subst hij2
    exact le_refl _

theorem pairwise_lt_getElem {l : List String}
    (hs : l.Pairwise (fun a b => a.data < b.data)) (i j : Nat)
    (hi : i < l.length) (hj : j < l.length) (hij : i < j) :
    (l[i]).data < (l[j]).data :=
  (List.pairwise_iff_getElem.mp hs) i j hi hj hij

theorem pairwise_le_getLast {l : List String}
    (hs : l.Pairwise (fun a b => a.data ≤ b.data)) {x : String} (hx : x ∈ l)
    (h : l ≠ []) : x.data ≤ (l.getLast h).data := by
  obtain ⟨i, hi, he⟩ := List.mem_iff_getElem.mp hx
  rw [List.getLast_eq_getElem]
  subst he
  exact pairwise_le_getElem hs i (l.length - 1) hi (by omega) (by omega)

/-! ### Membership in the pruning result -/

theorem mem_zip_tail {l : List String} {p : String × String} :
    p ∈ l.zip l.tail ↔
      ∃ i, ∃ h : i + 1 < l.length, p = (l[i], l[i + 1]) := by
  rw [List.mem_iff_getElem]
  constructor
  · rintro ⟨n, hn, he⟩
    have hlen : n + 1 < l.length := by
      rw [List.length_zip, List.length_tail] at hn
      omega
    refine ⟨n, hlen, ?_⟩
    rw [← he, List.getElem_zip, List.getElem_tail]
  · rintro ⟨i, h, he⟩
    have hn : i < (l.zip l.tail).length := by
      rw [List.length_zip, List.length_tail]
      omega
    refine ⟨i, hn, ?_⟩
    rw [List.getElem_zip, List.getElem_tail]
    exact he.symm

theorem mem_chainDeletions {l : List String} {now r : Int} {d : String}
    {p : String × String} :
    d ∈ chainDeletions (sortedDirs l) now r p ↔
      ∃ dt, parseBackupDate p.1 = some dt ∧ isExpired now r dt = true ∧
        d ∈ l ∧ p.1.data ≤ d.data ∧ d.data < p.2.data := by
  unfold chainDeletions
  rcases hp : parseBackupDate p.1 with _ | dt
  · simp [hp]
  · by_cases he : isExpired now r dt = true
    · simp [hp, he, List.mem_filter, mem_sortedDirs, nameLe_eq_true,
        nameLt_eq_true, and_assoc]
    · simp [hp, Bool.eq_false_iff.mpr he]

theorem mem_prune_iff {l : List String} {now r : Int} {d : String} :
    d ∈ prune_old_backups l now r ↔
      ∃ a b, (a, b) ∈ (fullBackups l).zip (fullBackups l).tail ∧
        ∃ dt, parseBackupDate a = some dt ∧ isExpired now r dt = true ∧
          d ∈ l ∧ a.data ≤ d.data ∧ d.data < b.data := by
  simp only [prune_old_backups]
  split
  · rename_i hle
    constructor
    · intro h
      exact absurd h (List.not_mem_nil d)
    · rintro ⟨a, b, hab, _⟩
      have hz : ((fullBackups l).zip (fullBackups l).tail).length = 0 := by
        rw [List.length_zip, List.length_tail]
        omega
      rw [List.length_eq_zero] at hz
      rw [hz] at hab
      exact absurd hab (List.not_mem_nil _)
  · rw [List.mem_flatMap]
    constructor
    · rintro ⟨⟨a, b⟩, hab, hd⟩
      exact ⟨a, b, hab, mem_chainDeletions.mp hd⟩
    · rintro ⟨a, b, hab, hcd⟩
      exact ⟨(a, b), hab, mem_chainDeletions.mpr hcd⟩

/-- Two chains that share a member are the same chain: the half-open
intervals of consecutive full backups are pairwise disjoint. -/
theorem chain_unique {l : List String} {a b a2 b2 d : String}
    (hab : (a, b) ∈ (fullBackups l).zip (fullBackups l).tail)
    (hab2 : (a2, b2) ∈ (fullBackups l).zip (fullBackups l).tail)
    (h1 : a.data ≤ d.data) (h2 : d.data < b.data)
    (h3 : a2.data ≤ d.data) (h4 : d.data < b2.data) : a = a2 ∧ b = b2 := by
  obtain ⟨i, hi, hpi⟩ := mem_zip_tail.mp hab
  obtain ⟨j, hj, hpj⟩ := mem_zip_tail.mp hab2
  rw [Prod.mk.injEq] at hpi hpj
  obtain ⟨ha, hb⟩ := hpi
  obtain ⟨ha2, hb2⟩ := hpj
  subst ha
  subst hb
  subst ha2
  subst hb2
  rcases Nat.lt_trichotomy i j with hij | hij | hij
  · exfalso
    have hbound : ((fullBackups l)[i + 1]).data ≤ ((fullBackups l)[j]).data :=
      pairwise_le_getElem (pairwise_le_fullBackups l) (i + 1) j (by omega)
        (by omega) (by omega)
    exact lt_irrefl _ (lt_of_lt_of_le h2 (le_trans hbound h3))
  · subst hij
    exact ⟨rfl, rfl⟩
  · exfalso
    have hbound : ((fullBackups l)[j + 1]).data ≤ ((fullBackups l)[i]).data :=
      pairwise_le_getElem (pairwise_le_fullBackups l) (j + 1) i (by omega)
        (by omega) (by omega)
    exact lt_irrefl _ (lt_of_lt_of_le h4 (le_trans hbound h1))

/-! ### Claims about pruning -/

/-- C1: For every directory listing containing at least one name ending in
`_full` (i.e. `fullBackups l` nonempty), and for every current time and
retention value, pruning deletes no member of the chain anchored by the
lexicographically last FULL name: every deleted directory name is strictly
below the last FULL name, so no directory greater than or equal to it is
ever deleted, regardless of age. -/
theorem current_chain_never_deleted (l : List String) (now r : Int)
    (hf : fullBackups l ≠ []) :
    ∀ d ∈ prune_old_backups l now r,
      d.data < ((fullBackups l).getLast hf).data := by
  intro d hd
  obtain ⟨a, b, hab, dt, _, _, _, _, hlt⟩ := mem_prune_iff.mp hd
  obtain ⟨i, hi, hpi⟩ := mem_zip_tail.mp hab
  rw [Prod.mk.injEq] at hpi
  obtain ⟨ha, hb⟩ := hpi
  subst hb
  have hbmem : (fullBackups l)[i + 1] ∈ fullBackups l :=
    List.mem_iff_getElem.mpr ⟨i + 1, by omega, rfl⟩
  exact lt_of_lt_of_le hlt
    (pairwise_le_getLast (pairwise_le_fullBackups l) hbmem hf)

theorem current_chain_never_deleted_witness :
    fullBackups ["2024-01-01T00-00-00_full", "2024-01-02T00-00-00_incremental",
        "2024-01-10T00-00-00_full"] ≠ [] ∧
    "2024-01-01T00-00-00_full".data <
      ((fullBackups ["2024-01-01T00-00-00_full",
          "2024-01-02T00-00-00_incremental",
          "2024-01-10T00-00-00_full"]).getLast (by decide)).data :=
  ⟨by decide,
    current_chain_never_deleted _ (86400 * 19737) 7 (by decide) _ (by decide)⟩

/-- C2: Pruning deletes exactly the directories `d` of the listing lying in
the half-open interval `fullBackups[i] ≤ d < fullBackups[i+1]` for some
non-last FULL at index `i` whose embedded date parses and is expired; and if
a non-last FULL's date is within retention, no member of its chain is
deleted. -/
theorem prune_deletes_exactly_expired_chains (l : List String) (now r : Int) :
    (∀ d, d ∈ prune_old_backups l now r ↔
      ∃ i, ∃ h : i + 1 < (fullBackups l).length, ∃ dt,
        parseBackupDate ((fullBackups l)[i]) = some dt ∧
        isExpired now r dt = true ∧ d ∈ l ∧
        ((fullBackups l)[i]).data ≤ d.data ∧
        d.data < ((fullBackups l)[i + 1]).data)
    ∧ (∀ i, ∀ h : i + 1 < (fullBackups l).length, ∀ dt,
        parseBackupDate ((fullBackups l)[i]) = some dt →
        isExpired now r dt = false →
        ∀ d, ((fullBackups l)[i]).data ≤ d.data →
          d.data < ((fullBackups l)[i + 1]).data →
          d ∉ prune_old_backups l now r) := by
  constructor
  · intro d
    rw [mem_prune_iff]
    constructor
    · rintro ⟨a, b, hab, dt, hp, he, hd, h1, h2⟩
      obtain ⟨i, hi, hpi⟩ := mem_zip_tail.mp hab
      rw [Prod.mk.injEq] at hpi
      obtain ⟨ha, hb⟩ := hpi
      subst ha
      subst hb
      exact ⟨i, hi, dt, hp, he, hd, h1, h2⟩
    · rintro ⟨i, hi, dt, hp, he, hd, h1, h2⟩
      exact ⟨_, _, mem_zip_tail.mpr ⟨i, hi, rfl⟩, dt, hp, he, hd, h1, h2⟩
  · intro i h dt hp hexp d h1 h2 hd
    obtain ⟨a2, b2, hab2, dt2, hp2, he2, _, h12, h22⟩ := mem_prune_iff.mp hd
    obtain ⟨heq1, _⟩ :=
      chain_unique hab2 (mem_zip_tail.mpr ⟨i, h, rfl⟩) h12 h22 h1 h2
    rw [heq1, hp] at hp2
    have hdt := Option.some.inj hp2
    rw [← hdt, hexp] at he2
    exact Bool.noConfusion he2

theorem prune_deletes_exactly_expired_chains_witness :
    "2024-01-02T00-00-00_incremental" ∈
      prune_old_backups ["2024-01-01T00-00-00_full",
        "2024-01-02T00-00-00_incremental", "2024-01-10T00-00-00_full"]
        (86400 * 19737) 7 :=
  ((prune_deletes_exactly_expired_chains _ (86400 * 19737) 7).1 _).mpr
    ⟨0, by decide, ⟨2024, 1, 1⟩, by decide, by decide, by decide, by decide,
      by decide⟩

/-- C4: After any pruning run, every chain is all-or-nothing: for each pair
of consecutive FULL names `(a, b)`, pruning either deletes every listing
member of the half-open interval `[a, b)` or deletes no member of it. -/
theorem prune_chain_all_or_nothing (l : List String) (now r : Int)
    (a b : String)
    (hab : (a, b) ∈ (fullBackups l).zip (fullBackups l).tail) :
    (∀ d, d ∈ l → a.data ≤ d.data → d.data < b.data →
        d ∈ prune_old_backups l now r)
    ∨ (∀ d, a.data ≤ d.data → d.data < b.data →
        d ∉ prune_old_backups l now r) := by
  rcases hp : parseBackupDate a with _ | dt
  · right
    intro d h1 h2 hd
    obtain ⟨a2, b2, hab2, dt2, hp2, _, _, h12, h22⟩ := mem_prune_iff.mp hd
    obtain ⟨heq1, _⟩ := chain_unique hab2 hab h12 h22 h1 h2
    rw [heq1, hp] at hp2
    exact Option.noConfusion hp2
  · by_cases he : isExpired now r dt = true
    · left
      intro d hd h1 h2
      exact mem_prune_iff.mpr ⟨a, b, hab, dt, hp, he, hd, h1, h2⟩
    · right
      intro d h1 h2 hd
      obtain ⟨a2, b2, hab2, dt2, hp2, he2, _, h12, h22⟩ := mem_prune_iff.mp hd
      obtain ⟨heq1, _⟩ := chain_unique hab2 hab h12 h22 h1 h2
      rw [heq1, hp] at hp2
      have hdt := Option.some.inj hp2
      rw [← hdt] at he2
      exact he he2

theorem prune_chain_all_or_nothing_witness :
    "2024-01-02T00-00-00_incremental" ∈
      prune_old_backups ["2024-01-01T00-00-00_full",
        "2024-01-02T00-00-00_incremental", "2024-01-10T00-00-00_full"]
        (86400 * 19737) 7 ∨
    "2024-01-01T00-00-00_full" ∉
      prune_old_backups ["2024-01-01T00-00-00_full",
        "2024-01-02T00-00-00_incremental", "2024-01-10T00-00-00_full"]
        (86400 * 19737) 7 :=
  (prune_chain_all_or_nothing _ (86400 * 19737) 7 "2024-01-01T00-00-00_full"
      "2024-01-10T00-00-00_full" (by decide)).elim
    (fun h => Or.inl (h _ (by decide) (by decide) (by decide)))
    (fun h => Or.inr (h _ (by decide) (by decide)))

/-- C5: For every listing whose set of names ending in `_full` has at most
one element, pruning deletes nothing and returns an empty deletion list,
regardless of the ages of the sets and of how many incremental sets exist. -/
theorem prune_with_at_most_one_full (l : List String) (now r : Int)
    (h : (l.filter isFullName).length ≤ 1) :
    prune_old_backups l now r = [] := by
  have hlen : (fullBackups l).length ≤ 1 := by
    have h2 : (fullBackups l).length = (l.filter isFullName).length :=
      ((perm_pySorted _).trans
        (List.Perm.filter isFullName (perm_pySorted l))).length_eq
    omega
  simp only [prune_old_backups]
  rw [if_pos hlen]

theorem prune_with_at_most_one_full_witness :
    ((["2000-01-01T00-00-00_full",
        "2000-01-02T00-00-00_incremental"].filter isFullName).length ≤ 1) ∧
    prune_old_backups ["2000-01-01T00-00-00_full",
        "2000-01-02T00-00-00_incremental"] (86400 * 19737) 7 = [] :=
  ⟨by decide, prune_with_at_most_one_full _ (86400 * 19737) 7 (by decide)⟩

/-- C6: A non-last FULL whose embedded date fails to parse protects its whole
chain — no directory in its half-open interval is ever deleted, whatever the
time and retention are — while every other FULL of the listing is still
evaluated: any other chain whose FULL parses and is expired is still
deleted in full. -/
theorem unparseable_full_chain_skipped (l : List String) (now r : Int)
    (i : Nat) (h : i + 1 < (fullBackups l).length)
    (hp : parseBackupDate ((fullBackups l)[i]) = none) :
    (∀ d, ((fullBackups l)[i]).data ≤ d.data →
        d.data < ((fullBackups l)[i + 1]).data →
        d ∉ prune_old_backups l now r)
    ∧ (∀ j, ∀ hj : j + 1 < (fullBackups l).length, ∀ dt,
        parseBackupDate ((fullBackups l)[j]) = some dt →
        isExpired now r dt = true →
        ∀ d, d ∈ l → ((fullBackups l)[j]).data ≤ d.data →
          d.data < ((fullBackups l)[j + 1]).data →
          d ∈ prune_old_backups l now r) := by
  constructor
  · intro d h1 h2 hd
    obtain ⟨a2, b2, hab2, dt2, hp2, _, _, h12, h22⟩ := mem_prune_iff.mp hd
    obtain ⟨heq1, _⟩ :=
      chain_unique hab2 (mem_zip_tail.mpr ⟨i, h, rfl⟩) h12 h22 h1 h2
    rw [heq1, hp] at hp2
    exact Option.noConfusion hp2
  · intro j hj dt hpj hej d hd h1 h2
    exact mem_prune_iff.mpr
      ⟨_, _, mem_zip_tail.mpr ⟨j, hj, rfl⟩, dt, hpj, hej, hd, h1, h2⟩

theorem unparseable_full_chain_skipped_witness :
    "199x_full" ∉
      prune_old_backups ["1990-01-05T00-00-00_incremental",
        "1990-01-01T00-00-00_full", "199x_full", "2024-01-10T00-00-00_full"]
        (86400 * 19737) 7 ∧
    "1990-01-01T00-00-00_full" ∈
      prune_old_backups ["1990-01-05T00-00-00_incremental",
        "1990-01-01T00-00-00_full", "199x_full", "2024-01-10T00-00-00_full"]
        (86400 * 19737) 7 :=
  have h6 := unparseable_full_chain_skipped
    ["1990-01-05T00-00-00_incremental", "1990-01-01T00-00-00_full",
      "199x_full", "2024-01-10T00-00-00_full"] (86400 * 19737) 7 1
    (by decide) (by decide)
  ⟨h6.1 _ (by decide) (by decide),
    h6.2 0 (by decide) ⟨1990, 1, 1⟩ (by decide) (by decide) _ (by decide)
      (by decide) (by decide)⟩

/-- C10: When a chain is expired and superseded, pruning deletes every
directory of the listing whose name falls in the half-open interval between
the expired FULL and the next FULL — including directories whose names are
not backup-set names at all; there is no per-directory name-format guard. -/
theorem chain_deletion_has_no_name_guard (l : List String) (now r : Int)
    (a b : String)
    (hab : (a, b) ∈ (fullBackups l).zip (fullBackups l).tail)
    (dt : PDate) (hp : parseBackupDate a = some dt)
    (he : isExpired now r dt = true) (d : String) (hd : d ∈ l)
    (h1 : a.data ≤ d.data) (h2 : d.data < b.data) :
    d ∈ prune_old_backups l now r :=
  mem_prune_iff.mpr ⟨a, b, hab, dt, hp, he, hd, h1, h2⟩

theorem chain_deletion_has_no_name_guard_witness :
    "2024-01-05_notes" ∈
      prune_old_backups ["2024-01-01T00-00-00_full",
        "2024-01-02T00-00-00_incremental", "2024-01-05_notes",
        "2024-01-10T00-00-00_full"] (86400 * 19737) 7 :=
  chain_deletion_has_no_name_guard _ (86400 * 19737) 7
    "2024-01-01T00-00-00_full" "2024-01-10T00-00-00_full" (by decide)
    ⟨2024, 1, 1⟩ (by decide) (by decide) _ (by decide) (by decide) (by decide)

/-! ### Claims about the planner and the run as a whole -/

/-- C3: The planner's decision rule, in priority order: with no existing
backup set the next backup is FULL; when today's day-of-month equals the
configured full-backup day the next backup is FULL; otherwise it is
INCREMENTAL, anchored at the lexicographically maximum existing set name
(whatever order the filesystem listed the names in). -/
theorem planner_decision_rule (listing : List String)
    (todayDay fullBackupDay : Nat) :
    (listing = [] →
      plannedKind fullBackupDay todayDay listing = BackupKind.full)
    ∧ (todayDay = fullBackupDay →
      plannedKind fullBackupDay todayDay listing = BackupKind.full)
    ∧ (listing ≠ [] → todayDay ≠ fullBackupDay →
      plannedKind fullBackupDay todayDay listing = BackupKind.incremental
      ∧ ∃ m, find_latest_backup listing = some m ∧ m ∈ listing ∧
          ∀ x ∈ listing, x.data ≤ m.data) := by
  refine ⟨?_, ?_, ?_⟩
  · intro h
    subst h
    simp [plannedKind, find_latest_backup]
  · intro h
    unfold plannedKind
    rw [if_pos (Or.inl h)]
  · intro hne hday
    have hps : pySorted listing ≠ [] := by
      intro hnil
      have hlen := (perm_pySorted listing).length_eq
      rw [hnil] at hlen
      exact hne (List.length_eq_zero.mp hlen.symm)
    have hsome : ∃ m, find_latest_backup listing = some m ∧ m ∈ listing ∧
        ∀ x ∈ listing, x.data ≤ m.data := by
      refine ⟨(pySorted listing).getLast hps, ?_, ?_, ?_⟩
      · unfold find_latest_backup
        rw [if_neg (by simp [List.isEmpty_iff, hne])]
        exact List.getLast?_eq_getLast _ hps
      · exact mem_pySorted.mp (List.getLast_mem hps)
      · intro x hx
        exact pairwise_le_getLast (pairwise_le_pySorted listing)
          (mem_pySorted.mpr hx) hps
    refine ⟨?_, hsome⟩
    unfold plannedKind
    rw [if_neg]
    rintro (hd | hn)
    · exact hday hd
    · obtain ⟨m, hm, _, _⟩ := hsome
      rw [hm] at hn
      exact Bool.noConfusion hn

theorem planner_decision_rule_witness :
    plannedKind 1 5 ["2024-01-01T00-00-00_full",
      "2024-01-02T00-00-00_incremental"] = BackupKind.incremental :=
  ((planner_decision_rule ["2024-01-01T00-00-00_full",
      "2024-01-02T00-00-00_incremental"] 5 1).2.2 (by decide) (by decide)).1

/-- C7: When the planner selects an INCREMENTAL target and the anchor set has
no manifest artifact, the run exits nonzero with an empty effect trace: the
external backup executor is never invoked (so there is no fallback to a FULL
backup) and nothing is deleted. -/
theorem incremental_missing_manifest_fatal (cfg : Config) (w : World)
    (hu : cfg.pgUser = true) (hh : cfg.pgHost = true)
    (hk : plannedKind cfg.fullBackupDay w.todayDay w.listing =
      BackupKind.incremental)
    (a : String) (ha : find_latest_backup w.listing = some a)
    (hm : a ∉ w.manifests) :
    (runMain cfg w).2 ≠ 0 ∧ (runMain cfg w).1 = [] := by
  have hrm : runMain cfg w = ([], 1) := by
    unfold runMain
    rw [hu, hh, hk, ha]
    simp [hm]
  rw [hrm]
  exact ⟨Nat.one_ne_zero, rfl⟩

theorem incremental_missing_manifest_fatal_witness :
    (runMain ⟨true, true, 1, 7⟩
      ⟨["2024-01-01T00-00-00_full"], [], true, 5, "2024-02-05T00-00-00",
        86400 * 19737⟩).2 ≠ 0 ∧
    (runMain ⟨true, true, 1, 7⟩
      ⟨["2024-01-01T00-00-00_full"], [], true, 5, "2024-02-05T00-00-00",
        86400 * 19737⟩).1 = [] :=
  incremental_missing_manifest_fatal _ _ rfl rfl (by decide)
    "2024-01-01T00-00-00_full" (by decide) (by decide)

/-- C8: If the external backup invocation was reached and exits nonzero, the
run exits nonzero and pruning never executes in that run: the effect trace
contains no directory deletion after a failed backup invocation. -/
theorem failed_backup_skips_pruning (cfg : Config) (w : World)
    (k : BackupKind) (dest : String)
    (_hrun : Event.runBackup k dest ∈ (runMain cfg w).1)
    (hb : w.backupOk = false) :
    (runMain cfg w).2 ≠ 0 ∧ ∀ d, Event.deleteDir d ∉ (runMain cfg w).1 := by
  have hshape : runMain cfg w = ([], 1) ∨
      ∃ k2 d2, runMain cfg w = ([Event.runBackup k2 d2], 1) := by
    unfold runMain
    split
    · exact Or.inl rfl
    · split
      · rw [hb]
        simp only [Bool.false_eq_true, if_false]
        exact Or.inr ⟨_, _, rfl⟩
      · split
        · exact Or.inl rfl
        · split
          · rw [hb]
            simp only [Bool.false_eq_true, if_false]
            exact Or.inr ⟨_, _, rfl⟩
          · exact Or.inl rfl
  rcases hshape with hrm | ⟨k2, d2, hrm⟩ <;> rw [hrm]
  · exact ⟨Nat.one_ne_zero, by simp⟩
  · exact ⟨Nat.one_ne_zero, by simp⟩

theorem failed_backup_skips_pruning_witness :
    (runMain ⟨true, true, 1, 7⟩
      ⟨["2024-01-01T00-00-00_full"], [], false, 1, "2024-02-01T00-00-00",
        86400 * 19737⟩).2 ≠ 0 ∧
    Event.deleteDir "2024-01-01T00-00-00_full" ∉
      (runMain ⟨true, true, 1, 7⟩
        ⟨["2024-01-01T00-00-00_full"], [], false, 1, "2024-02-01T00-00-00",
          86400 * 19737⟩).1 :=
  have h8 := failed_backup_skips_pruning ⟨true, true, 1, 7⟩
    ⟨["2024-01-01T00-00-00_full"], [], false, 1, "2024-02-01T00-00-00",
      86400 * 19737⟩ BackupKind.full "2024-02-01T00-00-00_full" (by decide)
    rfl
  ⟨h8.1, h8.2 "2024-01-01T00-00-00_full"⟩

/-- C9: Pruning is idempotent: running it again on the listing left over by a
first pruning run (all first-run deletions assumed successful, same time and
retention, no new backups in between) deletes nothing. -/
theorem prune_idempotent (l : List String) (now r : Int) (hnd : l.Nodup) :
    prune_old_backups
      (l.filter (fun d => decide (d ∉ prune_old_backups l now r))) now r
      = [] := by
  set P := prune_old_backups l now r with hP
  set l2 := l.filter (fun d => decide (d ∉ P)) with hl2
  have hnd2 : l2.Nodup := hnd.filter _
  have key : ∀ p ∈ (fullBackups l2).zip (fullBackups l2).tail,
      chainDeletions (sortedDirs l2) now r p = [] := by
    rintro ⟨a, b⟩ hab
    obtain ⟨i, hi, hpi⟩ := mem_zip_tail.mp hab
    rw [Prod.mk.injEq] at hpi
    obtain ⟨hpa, hpb⟩ := hpi
    have hmema : a ∈ fullBackups l2 := by
      rw [hpa]
      exact List.mem_iff_getElem.mpr ⟨i, by omega, rfl⟩
    have hmemb : b ∈ fullBackups l2 := by
      rw [hpb]
      exact List.mem_iff_getElem.mpr ⟨i + 1, by omega, rfl⟩
    have hltab : a.data < b.data := by
      rw [hpa, hpb]
      exact pairwise_lt_getElem (pairwise_lt_fullBackups hnd2) i (i + 1)
        (by omega) (by omega) (by omega)
    have ha2 : (a ∈ l ∧ decide (a ∉ P) = true) ∧ isFullName a = true := by
      have h0 := mem_fullBackups.mp hmema
      rw [hl2, List.mem_filter] at h0
      exact h0
    have hb2 : b ∈ l ∧ isFullName b = true := by
      have h0 := mem_fullBackups.mp hmemb
      rw [hl2, List.mem_filter] at h0
      exact ⟨h0.1.1, h0.2⟩
    have hanotP : a ∉ P := by
      have := ha2.1.2
      rw [decide_eq_true_iff] at this
      exact this
    have hafb : a ∈ fullBackups l := mem_fullBackups.mpr ⟨ha2.1.1, ha2.2⟩
    have hbfb : b ∈ fullBackups l := mem_fullBackups.mpr ⟨hb2.1, hb2.2⟩
    obtain ⟨ia, hia, hea⟩ := List.mem_iff_getElem.mp hafb
    obtain ⟨ib, hib, heb⟩ := List.mem_iff_getElem.mp hbfb
    have hiaib : ia < ib := by
      by_contra hcon
      push_neg at hcon
      have hle := pairwise_le_getElem (pairwise_le_fullBackups l) ib ia hib
        hia hcon
      rw [hea, heb] at hle
      exact absurd hltab (not_lt.mpr hle)
    have hia1 : ia + 1 < (fullBackups l).length := by omega
    rcases hp : parseBackupDate a with _ | dt
    · unfold chainDeletions
      rw [hp]
    · by_cases he : isExpired now r dt = true
      · exfalso
        apply hanotP
        rw [hP]
        apply mem_prune_iff.mpr
        refine ⟨(fullBackups l)[ia], (fullBackups l)[ia + 1],
          mem_zip_tail.mpr ⟨ia, hia1, rfl⟩, dt, ?_, he, ha2.1.1, ?_, ?_⟩
        · rw [hea]
          exact hp
        · rw [hea]
        · have := pairwise_lt_getElem (pairwise_lt_fullBackups hnd) ia
            (ia + 1) (by omega) hia1 (by omega)
          rw [hea] at this
          exact this
      · unfold chainDeletions
        rw [hp]
        exact if_neg he
  simp only [prune_old_backups]
  split
  · rfl
  · exact List.flatMap_eq_nil_iff.mpr key

theorem prune_idempotent_witness :
    (["2024-01-01T00-00-00_full", "2024-01-02T00-00-00_incremental",
      "2024-01-10T00-00-00_full"] : List String).Nodup ∧
    prune_old_backups
      (["2024-01-01T00-00-00_full", "2024-01-02T00-00-00_incremental",
        "2024-01-10T00-00-00_full"].filter
        (fun d => decide (d ∉
          prune_old_backups ["2024-01-01T00-00-00_full",
            "2024-01-02T00-00-00_incremental", "2024-01-10T00-00-00_full"]
            (86400 * 19737) 7))) (86400 * 19737) 7 = [] :=
  ⟨by decide, prune_idempotent _ (86400 * 19737) 7 (by decide)⟩

end Pgwaiter
